import Mathlib

set_option maxRecDepth 8000

/-!
Shallow embedding of ngfd's `src/ngf/settings.c` — the hierarchical
configuration resolution engine: group-identifier parsing, recursive
inheritance resolution with memoization, the resource-reference
mini-language (profile/fixed/linear/filename/internal), event
materialization, and the `load_settings` driver.

C strings are modelled as `List Char` (`Str`); machine integers as
unbounded `Int` (no arithmetic here overflows in the inputs considered);
fallible C functions returning `NULL` become `Option`-valued Lean
functions.  GLib collaborators (`g_strsplit`, `g_str_has_prefix`,
`GKeyFile`, `GHashTable`, `GList`) are embedded directly from their
documented semantics; repository code that is outside `settings.c`
(the `NProplist` container, the Registry interning functions) is
modelled from the specification and marked as such in its doc comment.
-/

/-- A C string (NUL-free), modelled as a list of characters. -/
abbrev Str : Type := List Char

/-- Convert a Lean string literal to the `Str` model. -/
def cs (s : String) : Str := s.toList

/-- Split at the first occurrence of the separator character `d`:
`some (before, after)` when `d` occurs, `none` otherwise. -/
def splitFirst (d : Char) : Str → Option (Str × Str)
  | [] => none
  | c :: rest =>
    if c = d then some ([], rest)
    else
      match splitFirst d rest with
      | none => none
      | some (a, b) => some (c :: a, b)

/-- Worker for `gSplitAll`, accumulating the current token reversed. -/
def splitAllAux (d : Char) : Str → Str → List Str
  | [], acc => [acc.reverse]
  | c :: rest, acc =>
    if c = d then acc.reverse :: splitAllAux d rest []
    else splitAllAux d rest (c :: acc)

/-- `g_strsplit (s, d, -1)`: split on every occurrence of `d`, keeping
empty tokens; as a special case the empty string yields the empty
vector. -/
def gSplitAll (d : Char) (s : Str) : List Str :=
  if s = [] then [] else splitAllAux d s []

/-- `g_strsplit (s, d, 2)`: split at the first occurrence of `d` only;
the empty string yields the empty vector. -/
def gSplit2 (d : Char) (s : Str) : List Str :=
  if s = [] then []
  else
    match splitFirst d s with
    | none => [s]
    | some (a, b) => [a, b]

/-- `_strip_group_type`: skip characters up to and including the first
space; `NULL` (`none`) when there is no space or nothing follows it. -/
def stripGroupType (group : Str) : Option Str :=
  match splitFirst ' ' group with
  | none => none
  | some (_, rest) => if rest = [] then none else some rest

/-- `_parse_group_name`: the part of the stripped remainder before the
first `@` (the whole remainder when no `@` occurs). -/
def parseGroupName (group : Str) : Option Str :=
  match stripGroupType group with
  | none => none
  | some name =>
    match gSplit2 '@' name with
    | [] => none
    | n :: _ => some n

/-- `_parse_group_parent`: the part of the stripped remainder after the
first `@`; `none` when no `@` occurs. -/
def parseGroupParent (group : Str) : Option Str :=
  match stripGroupType group with
  | none => none
  | some name =>
    match gSplit2 '@' name with
    | [_, p] => some p
    | _ => none

/-- The name/parent components of a parsed group identifier (the type
tag is dispatched separately in the source, by `g_str_has_prefix` on
the raw group string, and carries no data). -/
structure GroupIdentifier where
  name : Str
  parent : Option Str
  deriving DecidableEq, Repr

/-- The Identifier Parser assembled from the two source functions:
fails exactly when `_parse_group_name` does. -/
def parseGroupIdentifier (group : Str) : Option GroupIdentifier :=
  match parseGroupName group with
  | none => none
  | some n => some ⟨n, parseGroupParent group⟩

/-- Outcome of a typed `GKeyFile` read: the value, an invalid-value
error (`G_KEY_FILE_ERROR_INVALID_VALUE`), or a not-found error (key or
group absent).  `_add_property_*` treats the two error cases alike
except for the logged warning. -/
inductive GetRes (α : Type) where
  | ok (v : α)
  | invalidValue
  | notFound
  deriving DecidableEq, Repr

/-- The loaded configuration source: typed per-group/per-key lookups
plus the ordered group list, mirroring the `GKeyFile` interface used by
`settings.c`. -/
structure KeyFile where
  getInt : Str → Str → GetRes Int
  getBool : Str → Str → GetRes Bool
  getStr : Str → Str → GetRes Str
  groups : List Str

/-- `g_key_file_get_string` with a `NULL` error argument: `NULL` on any
failure. -/
def getStringOpt (k : KeyFile) (group key : Str) : Option Str :=
  match k.getStr group key with
  | .ok v => some v
  | _ => none

/-- A property value as stored in an `NProplist`: a string slot may
hold a `NULL` C string (`none`). -/
inductive NValue where
  | str (s : Option Str)
  | int (i : Int)
  | bool (b : Bool)
  deriving DecidableEq, Repr

/-- Modelled from the spec: `PropertySet` is an ordered mapping from
field name to `PropertyValue` (the repository's `NProplist` container,
whose source is outside `settings.c`). -/
abbrev Proplist : Type := List (Str × NValue)

/-- Look a key up in a property set (first binding wins; `plistSet`
keeps at most one binding per key). -/
def plistGet (p : Proplist) (key : Str) : Option NValue :=
  match p with
  | [] => none
  | (k, v) :: rest => if k = key then some v else plistGet rest key

/-- Modelled from the spec: `n_proplist_set_*` stores a value under a
key, replacing any previous binding in place and appending otherwise. -/
def plistSet (p : Proplist) (key : Str) (v : NValue) : Proplist :=
  match p with
  | [] => [(key, v)]
  | (k, w) :: rest => if k = key then (k, v) :: rest else (k, w) :: plistSet rest key v

/-- Modelled from the spec: `n_proplist_merge (target, source)` overlays
every binding of `source` onto `target` (source values replace target
values; target keys the source lacks are retained). -/
def plistMerge (target source : Proplist) : Proplist :=
  source.foldl (fun acc kv => plistSet acc kv.1 kv.2) target

/-- Modelled from the spec: `n_proplist_copy` duplicates a property
set; following the codebase's pervasive `NULL`-guard convention, the
copy of a `NULL` list is `NULL`. -/
def nProplistCopy : Option Proplist → Option Proplist
  | none => none
  | some p => some p

/-- The three value kinds of the static schema (`KEY_ENTRY_TYPE_*`). -/
inductive KeyType where
  | str
  | int
  | bool
  deriving DecidableEq, Repr

/-- One row of the static schema table (`KeyEntry`): value kind, field
name, integer default (also used, as a `gboolean`, for boolean rows)
and string default. -/
structure KeyEntry where
  type : KeyType
  key : Str
  defInt : Int
  defStr : Option Str
  deriving DecidableEq, Repr

/-- The static schema (`event_entries`): the 18 recognized event
fields with their kinds and defaults, in source order. -/
def event_entries : List KeyEntry :=
  [ ⟨.int , cs "max_timeout"          , 0 , none⟩,
    ⟨.bool, cs "allow_custom"         , 0 , none⟩,
    ⟨.int , cs "dummy"                , 0 , none⟩,
    ⟨.bool, cs "audio_enabled"        , 0 , none⟩,
    ⟨.bool, cs "audio_repeat"         , 0 , none⟩,
    ⟨.int , cs "audio_max_repeats"    , 0 , none⟩,
    ⟨.str , cs "sound"                , 0 , none⟩,
    ⟨.bool, cs "silent_enabled"       , 0 , none⟩,
    ⟨.str , cs "volume"               , 0 , none⟩,
    ⟨.str , cs "event_id"             , 0 , none⟩,
    ⟨.bool, cs "audio_tonegen_enabled", 0 , none⟩,
    ⟨.int , cs "audio_tonegen_pattern", -1, none⟩,
    ⟨.bool, cs "vibration_enabled"    , 0 , none⟩,
    ⟨.bool, cs "lookup_pattern"       , 0 , none⟩,
    ⟨.str , cs "vibration"            , 0 , none⟩,
    ⟨.bool, cs "led_enabled"          , 0 , none⟩,
    ⟨.str , cs "led_pattern"          , 0 , none⟩,
    ⟨.bool, cs "backlight_enabled"    , 0 , none⟩ ]

/-- `_add_property_int`: read an integer; on any read error fall back
to the default, but store it only when `setDefault` holds. -/
def addPropertyInt (p : Proplist) (k : KeyFile) (group key : Str)
    (defValue : Int) (setDefault : Bool) : Proplist :=
  match k.getInt group key with
  | .ok v => plistSet p key (.int v)
  | _ => if setDefault then plistSet p key (.int defValue) else p

/-- `_add_property_bool`: boolean analogue of `addPropertyInt`. -/
def addPropertyBool (p : Proplist) (k : KeyFile) (group key : Str)
    (defValue : Bool) (setDefault : Bool) : Proplist :=
  match k.getBool group key with
  | .ok v => plistSet p key (.bool v)
  | _ => if setDefault then plistSet p key (.bool defValue) else p

/-- `_add_property_string`: string analogue; the stored default may be
the `NULL` string. -/
def addPropertyString (p : Proplist) (k : KeyFile) (group key : Str)
    (defValue : Option Str) (setDefault : Bool) : Proplist :=
  match k.getStr group key with
  | .ok v => plistSet p key (.str (some v))
  | _ => if setDefault then plistSet p key (.str defValue) else p

/-- Dispatch one schema row to the matching `_add_property_*` call, as
the `switch` in `_parse_single_event` does (`isBase` is the
`set_default` argument). -/
def addEntry (k : KeyFile) (group : Str) (isBase : Bool)
    (p : Proplist) (e : KeyEntry) : Proplist :=
  match e.type with
  | .str => addPropertyString p k group e.key e.defStr isBase
  | .int => addPropertyInt p k group e.key e.defInt isBase
  | .bool => addPropertyBool p k group e.key (e.defInt != 0) isBase

/-- The schema scan of `_parse_single_event`: fold the 18 schema rows
over an initially empty property set. -/
def buildProps (k : KeyFile) (group : Str) (isBase : Bool) : Proplist :=
  event_entries.foldl (addEntry k group isBase) []

/-- The value a schema row resolves to for a base event: the source
value when the read succeeds, the schema default otherwise. -/
def entryResult (k : KeyFile) (group : Str) (e : KeyEntry) : NValue :=
  match e.type with
  | .str =>
    match k.getStr group e.key with
    | .ok v => .str (some v)
    | _ => .str e.defStr
  | .int =>
    match k.getInt group e.key with
    | .ok v => .int v
    | _ => .int e.defInt
  | .bool =>
    match k.getBool group e.key with
    | .ok v => .bool v
    | _ => .bool (e.defInt != 0)

/-- A schema row's read from the source fails (absent or
type-mismatched value). -/
def entryFails (k : KeyFile) (group : Str) (e : KeyEntry) : Prop :=
  match e.type with
  | .str => ∀ v, k.getStr group e.key ≠ .ok v
  | .int => ∀ v, k.getInt group e.key ≠ .ok v
  | .bool => ∀ v, k.getBool group e.key ≠ .ok v

instance (k : KeyFile) (group : Str) (e : KeyEntry) :
    Decidable (entryFails k group e) := by
  unfold entryFails
  cases e.type with
  | str => cases h : k.getStr group e.key with
    | ok v => exact .isFalse (fun hf => hf v rfl)
    | invalidValue => exact .isTrue (fun v => by simp [h])
    | notFound => exact .isTrue (fun v => by simp [h])
  | int => cases h : k.getInt group e.key with
    | ok v => exact .isFalse (fun hf => hf v rfl)
    | invalidValue => exact .isTrue (fun v => by simp [h])
    | notFound => exact .isTrue (fun v => by simp [h])
  | bool => cases h : k.getBool group e.key with
    | ok v => exact .isFalse (fun hf => hf v rfl)
    | invalidValue => exact .isTrue (fun v => by simp [h])
    | notFound => exact .isTrue (fun v => by simp [h])


/-- `_event_is_done`: linear scan of the done-list with string
equality. -/
def eventIsDone : List Str → Str → Bool
  | [], _ => false
  | d :: rest, name => if d = name then true else eventIsDone rest name

/-- `g_hash_table_lookup` on a string-keyed table modelled as an
association list. -/
def hashLookup {α : Type} (m : List (Str × α)) (key : Str) : Option α :=
  match m with
  | [] => none
  | (k, v) :: rest => if k = key then some v else hashLookup rest key

/-- `g_hash_table_insert` / `g_hash_table_replace`: replace the value
under an existing key, append otherwise. -/
def hashInsert {α : Type} (m : List (Str × α)) (key : Str) (v : α) : List (Str × α) :=
  match m with
  | [] => [(key, v)]
  | (k, w) :: rest => if k = key then (k, v) :: rest else (k, w) :: hashInsert rest key v

/-- The per-pass resolver state of `_parse_events`: the transient
events table (`data->events`, whose stored property list may be the
`NULL` list) and the done-list (`events_done`). -/
structure SState where
  events : List (Str × Option Proplist)
  done : List Str
  deriving DecidableEq, Repr

/-- `_parse_single_event`: recursive inheritance resolution for one
event name.  Returns the updated state plus the trace of names whose
property set was freshly computed by this call (each name is traced at
the moment it is appended to the done-list).  The C recursion is
unbounded (no cycle guard); `fuel` bounds it in the model, and a call
that runs out of fuel returns its state unchanged — on the acyclic
configurations for which the C code terminates, any fuel larger than
the inheritance depth gives the C behavior. -/
def parseSingleEvent (fuel : Nat) (groups : List (Str × Str)) (k : KeyFile)
    (st : SState) (name : Option Str) : SState × List Str :=
  match fuel with
  | 0 => (st, [])
  | fuel + 1 =>
    match name with
    | none => (st, [])
    | some name =>
      if eventIsDone st.done name then (st, [])
      else
        match hashLookup groups name with
        | none => (st, [])
        | some group =>
          let parent := parseGroupParent group
          let r1 := parseSingleEvent fuel groups k st parent
          let props := buildProps k group parent.isNone
          let stored : Option Proplist :=
            match parent with
            | none => some props
            | some p =>
              match nProplistCopy (Option.join (hashLookup r1.1.events p)) with
              | none => none
              | some c => some (plistMerge c props)
          (⟨hashInsert r1.1.events name stored, r1.1.done ++ [name]⟩, r1.2 ++ [name])

/-- A configuration source in which every lookup fails with
not-found (used to instantiate universally quantified theorems). -/
def kfAllAbsent : KeyFile :=
  ⟨fun _ _ => .notFound, fun _ _ => .notFound, fun _ _ => .notFound, []⟩

/-- Concrete group index: two events `a` and `b` sharing parent `p`,
`p` itself a base event. -/
def groupsShared : List (Str × Str) :=
  [(cs "a", cs "event a@p"), (cs "b", cs "event b@p"), (cs "p", cs "event p")]

/-- Concrete group index: event `e` declaring a parent `ghost` that
has no group of its own. -/
def groupsGhost : List (Str × Str) :=
  [(cs "e", cs "event e@ghost")]

/-- Number of occurrences of a name in a resolution trace. -/
def countStr (l : List Str) (x : Str) : Nat :=
  match l with
  | [] => 0
  | d :: rest => (if d = x then 1 else 0) + countStr rest x

/-- Is this character ASCII whitespace for `atoi` purposes
(`isspace`). -/
def isSpaceC (c : Char) : Bool :=
  c = ' ' || c = '\t' || c = '\n' || c = '\x0b' || c = '\x0c' || c = '\r'

/-- Leading-digit accumulator of `atoi`: stop at the first
non-digit. -/
def atoiDigits : Str → Nat → Nat
  | [], acc => acc
  | c :: rest, acc =>
    if '0' ≤ c ∧ c ≤ '9' then atoiDigits rest (acc * 10 + (c.toNat - '0'.toNat))
    else acc

/-- C `atoi`: optional whitespace, optional sign, longest digit run;
0 when no digits.  Modelled on unbounded integers (the configuration
values involved are far from overflow, where C `atoi` is undefined
anyway). -/
def atoi (s : Str) : Int :=
  match s.dropWhile isSpaceC with
  | '-' :: rest => - (atoiDigits rest 0 : Int)
  | '+' :: rest => (atoiDigits rest 0 : Int)
  | s1 => (atoiDigits s1 0 : Int)

/-- `_strip_prefix`: the remainder after a literal leading token, or
`NULL` when the token is not a prefix. -/
def stripLit (pre s : Str) : Option Str :=
  if pre.isPrefixOf s then some (s.drop pre.length) else none

/-- `_parse_profile_key`: split the payload once on `@`; the left part
is the key (fails only for a `NULL` or empty payload), the right part,
when an `@` occurs, is the profile (a missing right part leaves the
profile `NULL`, as `g_strdup (NULL)` does). -/
def parseProfileKey : Option Str → Option (Str × Option Str)
  | none => none
  | some s =>
    match gSplit2 '@' s with
    | [] => none
    | [k] => some (k, none)
    | k :: p :: _ => some (k, some p)

/-- `SoundPath`: profile-addressed or file-addressed sound
reference. -/
inductive SoundPath where
  | profile (profile : Option Str) (key : Str)
  | file (path : Str)
  deriving DecidableEq, Repr

/-- `Volume`: profile, fixed-level, or linear-ramp volume reference. -/
inductive Volume where
  | profile (profile : Option Str) (key : Str)
  | fixed (level : Int)
  | linear (level : Int) (ramp : Int × Int × Int)
  deriving DecidableEq, Repr

/-- `VibrationPattern`: profile, file, or internal-id vibration
reference. -/
inductive VibrationPattern where
  | profile (profile : Option Str) (key : Str)
  | file (path : Str)
  | internal (pattern : Int)
  deriving DecidableEq, Repr

/-- `g_build_filename (dir, base, NULL)`, modelled as joining with a
single separator (GLib's collapsing of duplicate separators is not
exercised by the claims). -/
def gBuildFilename (dir base : Str) : Str := dir ++ '/' :: base

/-- `_check_path`: the literal path when it exists, else the path
joined under the search directory when that exists, else `NULL`.  The
file system is a predicate `fs` (`g_file_test (.., G_FILE_TEST_EXISTS)`). -/
def checkPath (fs : Str → Bool) (basename searchPath : Str) : Option Str :=
  if fs basename then some basename
  else
    if fs (gBuildFilename searchPath basename) then
      some (gBuildFilename searchPath basename)
    else none

/-- Modelled from the spec: interning a sound reference into the
Registry returns a behaviorally identical shared handle (`NULL` in,
`NULL` out), so it is the identity here. -/
def contextAddSoundPath (sp : Option SoundPath) : Option SoundPath := sp

/-- Modelled from the spec: Registry interning of a volume reference,
as for `contextAddSoundPath`. -/
def contextAddVolume (v : Option Volume) : Option Volume := v

/-- Modelled from the spec: Registry interning of a vibration pattern,
as for `contextAddSoundPath`. -/
def contextAddPattern (p : Option VibrationPattern) : Option VibrationPattern := p

/-- `_parse_sound_path`: prefix dispatch of one sound entry. -/
def parseSoundPath (fs : Str → Bool) (soundDir : Str) : Option Str → Option SoundPath
  | none => none
  | some s =>
    match stripLit (cs "profile:") s with
    | some stripped =>
      match parseProfileKey (some stripped) with
      | none => none
      | some kp => contextAddSoundPath (some (SoundPath.profile kp.2 kp.1))
    | none =>
      match stripLit (cs "filename:") s with
      | some stripped =>
        match checkPath fs stripped soundDir with
        | none => none
        | some path => contextAddSoundPath (some (SoundPath.file path))
      | none => contextAddSoundPath none

/-- `_create_sound_paths`: split the field on `;`, parse each entry,
append the successes in order (`GList` result; `NULL` is the empty
sequence). -/
def createSoundPaths (fs : Str → Bool) (soundDir : Str) : Option Str → List SoundPath
  | none => []
  | some s =>
    match gSplitAll ';' s with
    | [] => []
    | parts =>
      parts.foldl (fun acc e =>
        match parseSoundPath fs soundDir (some e) with
        | some x => acc ++ [x]
        | none => acc) []

/-- `_create_volume`: prefix dispatch of the whole volume string
(there is no top-level split on `;`; the `linear:` payload alone is
split on `;` and needs at least three integers; its level is the
constant 100). -/
def createVolume : Option Str → Option Volume
  | none => none
  | some s =>
    match stripLit (cs "profile:") s with
    | some stripped =>
      match parseProfileKey (some stripped) with
      | none => none
      | some kp => contextAddVolume (some (Volume.profile kp.2 kp.1))
    | none =>
      match stripLit (cs "fixed:") s with
      | some stripped => contextAddVolume (some (Volume.fixed (atoi stripped)))
      | none =>
        match stripLit (cs "linear:") s with
        | some stripped =>
          match gSplitAll ';' stripped with
          | a :: b :: c :: _ =>
            contextAddVolume (some (Volume.linear 100 (atoi a, atoi b, atoi c)))
          | _ => none
        | none => contextAddVolume none

/-- Modelled from the spec (stated only to refute the claimed
behavior): the spec's account of the volume field — split the raw
string on `;` into candidates and return the first one the volume
grammar accepts. -/
def firstVolumeEntry : List Str → Option Volume
  | [] => none
  | e :: rest =>
    match createVolume (some e) with
    | some v => some v
    | none => firstVolumeEntry rest

/-- Modelled from the spec (stated only to refute the claimed
behavior): the volume parser as the spec describes it. -/
def createVolumeSpecFirst (s : Str) : Option Volume :=
  firstVolumeEntry (gSplitAll ';' s)

/-- `_parse_pattern`: prefix dispatch of one vibration entry. -/
def parsePattern (fs : Str → Bool) (patternDir : Str) : Option Str → Option VibrationPattern
  | none => none
  | some s =>
    match stripLit (cs "profile:") s with
    | some stripped =>
      match parseProfileKey (some stripped) with
      | none => none
      | some kp => contextAddPattern (some (VibrationPattern.profile kp.2 kp.1))
    | none =>
      match stripLit (cs "filename:") s with
      | some stripped =>
        match checkPath fs stripped patternDir with
        | none => none
        | some path => contextAddPattern (some (VibrationPattern.file path))
      | none =>
        match stripLit (cs "internal:") s with
        | some stripped => contextAddPattern (some (VibrationPattern.internal (atoi stripped)))
        | none => contextAddPattern none

/-- `_create_patterns`: split the vibration field on `;`, parse each
entry, append the successes in order. -/
def createPatterns (fs : Str → Bool) (patternDir : Str) : Option Str → List VibrationPattern
  | none => []
  | some s =>
    match gSplitAll ';' s with
    | [] => []
    | parts =>
      parts.foldl (fun acc e =>
        match parsePattern fs patternDir (some e) with
        | some x => acc ++ [x]
        | none => acc) []

/-- Modelled from the spec: `n_proplist_get_bool` with the codebase's
`NULL`-guards — a `NULL` list, a missing key, or a kind mismatch reads
as FALSE. -/
def getBoolD (pl : Option Proplist) (key : Str) : Bool :=
  match pl with
  | none => false
  | some p =>
    match plistGet p key with
    | some (.bool b) => b
    | _ => false

/-- Modelled from the spec: `n_proplist_get_int`, reading 0 on any
failure. -/
def getIntD (pl : Option Proplist) (key : Str) : Int :=
  match pl with
  | none => 0
  | some p =>
    match plistGet p key with
    | some (.int i) => i
    | _ => 0

/-- Modelled from the spec: `n_proplist_get_string`, reading `NULL` on
any failure. -/
def getStrD (pl : Option Proplist) (key : Str) : Option Str :=
  match pl with
  | none => none
  | some p =>
    match plistGet p key with
    | some (.str s) => s
    | _ => none

/-- The materialized event record (`Event`), as filled by
`finalize_event`. -/
structure Event where
  audioEnabled : Bool
  vibrationEnabled : Bool
  ledsEnabled : Bool
  backlightEnabled : Bool
  allowCustom : Bool
  maxTimeout : Int
  lookupPattern : Bool
  silentEnabled : Bool
  eventId : Option Str
  toneGeneratorEnabled : Bool
  toneGeneratorPattern : Int
  soundRepeat : Bool
  numRepeats : Int
  ledPattern : Option Str
  sounds : List SoundPath
  volume : Option Volume
  patterns : List VibrationPattern
  deriving DecidableEq, Repr

/-- `finalize_event`: project a resolved property set (possibly the
NULL set) into a typed event record; the three resource fields go
through the Resource Reference Parser. -/
def finalizeEvent (fs : Str → Bool) (soundDir patternDir : Str)
    (pl : Option Proplist) : Event :=
  { audioEnabled := getBoolD pl (cs "audio_enabled")
    vibrationEnabled := getBoolD pl (cs "vibration_enabled")
    ledsEnabled := getBoolD pl (cs "led_enabled")
    backlightEnabled := getBoolD pl (cs "backlight_enabled")
    allowCustom := getBoolD pl (cs "allow_custom")
    maxTimeout := getIntD pl (cs "max_timeout")
    lookupPattern := getBoolD pl (cs "lookup_pattern")
    silentEnabled := getBoolD pl (cs "silent_enabled")
    eventId := getStrD pl (cs "event_id")
    toneGeneratorEnabled := getBoolD pl (cs "audio_tonegen_enabled")
    toneGeneratorPattern := getIntD pl (cs "audio_tonegen_pattern")
    soundRepeat := getBoolD pl (cs "audio_repeat")
    numRepeats := getIntD pl (cs "audio_max_repeats")
    ledPattern := getStrD pl (cs "led_pattern")
    sounds := createSoundPaths fs soundDir (getStrD pl (cs "sound"))
    volume := createVolume (getStrD pl (cs "volume"))
    patterns := createPatterns fs patternDir (getStrD pl (cs "vibration")) }

/-- The global settings `_parse_general` stores into the `Context`. -/
structure GeneralSettings where
  requiredPlugins : List Str
  patternsPath : Option Str
  soundPath : Option Str
  audioBufferTime : Int
  audioLatencyTime : Int
  systemVolume : Int × Int × Int
  deriving DecidableEq, Repr

/-- `_parse_required_plugins`: the `plugins` value split on spaces, or
nothing when the key is absent. -/
def parseRequiredPlugins (k : KeyFile) : List Str :=
  match getStringOpt k (cs "general") (cs "plugins") with
  | none => []
  | some v => gSplitAll ' ' v

/-- `g_key_file_get_integer` with a `NULL` error argument: 0 on any
failure. -/
def getIntOr0 (k : KeyFile) (group key : Str) : Int :=
  match k.getInt group key with
  | .ok v => v
  | _ => 0

/-- `_parse_general`.  The `system_volume` string is passed to
`g_strsplit` with no `NULL` check; when the key is absent the C code
dereferences `NULL` — modelled as the `none` outcome.  A split with
fewer than three entries returns early, leaving the remaining slots of
the caller-initialized volume vector (`initVol`) untouched. -/
def parseGeneral (initVol : Int × Int × Int) (k : KeyFile) : Option GeneralSettings :=
  let plugins := parseRequiredPlugins k
  let pat := getStringOpt k (cs "general") (cs "vibration_search_path")
  let snd := getStringOpt k (cs "general") (cs "sound_search_path")
  let buf := getIntOr0 k (cs "general") (cs "buffer_time")
  let lat := getIntOr0 k (cs "general") (cs "latency_time")
  match getStringOpt k (cs "general") (cs "system_volume") with
  | none => none
  | some v =>
    let sv :=
      match gSplitAll ';' v with
      | [] => initVol
      | [a] => (atoi a, initVol.2.1, initVol.2.2)
      | [a, b] => (atoi a, atoi b, initVol.2.2)
      | a :: b :: c :: _ => (atoi a, atoi b, atoi c)
    some ⟨plugins, pat, snd, buf, lat, sv⟩

/-- A definition record (`Definition`). -/
structure Definition where
  longEvent : Option Str
  shortEvent : Option Str
  meetingEvent : Option Str
  deriving DecidableEq, Repr

/-- `_parse_definitions`: for every group whose raw name starts with
"definition" and parses to a name, read the three optional fields and
register the definition (replace on collision). -/
def parseDefinitions (k : KeyFile) : List (Str × Definition) :=
  k.groups.foldl (fun acc g =>
    if (cs "definition").isPrefixOf g then
      match parseGroupName g with
      | none => acc
      | some name =>
        hashInsert acc name
          ⟨getStringOpt k g (cs "long"), getStringOpt k g (cs "short"),
           getStringOpt k g (cs "meeting")⟩
    else acc) []

/-- The transient name-to-group index of `_parse_events`: every group
whose raw name starts with "event" and parses to a name. -/
def buildGroupIndex (k : KeyFile) : List (Str × Str) :=
  k.groups.foldl (fun acc g =>
    if (cs "event").isPrefixOf g then
      match parseGroupName g with
      | none => acc
      | some name => hashInsert acc name g
    else acc) []

/-- The resolution loop of `_parse_events`: resolve every indexed
event name in order (memoization makes the order immaterial) and keep
the resulting events table.  Each top-level call gets fuel exceeding
the index size, which covers every terminating (acyclic) C execution;
on a cyclic inheritance chain the C code recurses without bound. -/
def parseEventsTable (k : KeyFile) : List (Str × Option Proplist) :=
  let groups := buildGroupIndex k
  (groups.foldl
    (fun st nm => (parseSingleEvent (groups.length + 1) groups k st (some nm.1)).1)
    ⟨[], []⟩).events

/-- The materialization loop of `_parse_events`: finalize every
resolved property set into the Registry's event table (replace on
collision). -/
def parseEvents (fs : Str → Bool) (soundDir patternDir : Str) (k : KeyFile) :
    List (Str × Event) :=
  (parseEventsTable k).foldl
    (fun acc nv => hashInsert acc nv.1 (finalizeEvent fs soundDir patternDir nv.2)) []

/-- What `load_settings` leaves behind: its boolean return value and
the Registry contents produced by the three parsing passes. -/
structure LoadResult where
  success : Bool
  general : Option GeneralSettings
  definitions : List (Str × Definition)
  events : List (Str × Event)

/-- The fixed ordered candidate list of configuration files
(`conf_files`). -/
def confFiles : List Str := [cs "/etc/ngf/ngf.ini", cs "./ngf.ini"]

/-- The load loop of `load_settings`: the first candidate that loads
wins. -/
def firstLoaded (load : Str → Option KeyFile) : List Str → Option KeyFile
  | [] => none
  | f :: rest =>
    match load f with
    | some kf => some kf
    | none => firstLoaded load rest

/-- `load_settings`: fail (returning FALSE) only when no candidate
file loads; otherwise run the three parsing passes over the first
loaded file and return TRUE.  The `none` outcome models the `NULL`
dereference inside `_parse_general` (the process crashes before
returning).  A missing search-path key reaches `g_build_filename` as
`NULL`; it is modelled as the empty directory (no claim exercises
it). -/
def loadSettings (fs : Str → Bool) (initVol : Int × Int × Int)
    (load : Str → Option KeyFile) : Option LoadResult :=
  match firstLoaded load confFiles with
  | none => some ⟨false, none, [], []⟩
  | some kf =>
    match parseGeneral initVol kf with
    | none => none
    | some gen =>
      some ⟨true, some gen, parseDefinitions kf,
        parseEvents fs (gen.soundPath.getD []) (gen.patternsPath.getD []) kf⟩

/-- A load map in which only the first candidate file loads, yielding
a source with no `system_volume` key. -/
def loadEtcOnly : Str → Option KeyFile :=
  fun f => if f = cs "/etc/ngf/ngf.ini" then some kfAllAbsent else none

/-- A configuration source whose general group has a `system_volume`
value and nothing else. -/
def kfWithSysVol : KeyFile :=
  { getInt := fun _ _ => .notFound
    getBool := fun _ _ => .notFound
    getStr := fun g key =>
      if g = cs "general" ∧ key = cs "system_volume" then .ok (cs "100;80;60")
      else .notFound
    groups := [] }

/-- A load map in which only the first candidate loads, yielding
`kfWithSysVol`. -/
def loadEtcSysVol : Str → Option KeyFile :=
  fun f => if f = cs "/etc/ngf/ngf.ini" then some kfWithSysVol else none

/-- The declared parent of an indexed event name: the parent component
of its group identifier, when the name has a group at all. -/
def parentOf (groups : List (Str × Str)) (n : Str) : Option Str :=
  match hashLookup groups n with
  | none => none
  | some g => parseGroupParent g

/-- Does `p` occur on the parent chain starting at `start`, within the
given number of steps?  (`start` itself counts.)  Used to state
acyclicity of an inheritance chain through `p`. -/
def inParentChain (groups : List (Str × Str)) : Nat → Str → Str → Bool
  | 0, _, _ => false
  | fuel + 1, start, p =>
    if start = p then true
    else
      match parentOf groups start with
      | none => false
      | some q => inParentChain groups fuel q p

/-- Concrete group index: two events `a` and `b` sharing the derived
parent `p`, which itself inherits from the base event `r`. -/
def groupsShared2 : List (Str × Str) :=
  [(cs "a", cs "event a@p"), (cs "b", cs "event b@p"),
   (cs "p", cs "event p@r"), (cs "r", cs "event r")]

-- ===== END OF DEFINITIONS =====

-- Basic facts about `splitFirst`, shared by the identifier theorems.

theorem splitFirst_eq_none {d : Char} {s : Str} :
    splitFirst d s = none ↔ d ∉ s := by
  induction s with
  | nil => simp [splitFirst]
  | cons c rest ih =>
    by_cases hc : c = d
    · subst hc; simp [splitFirst]
    · simp only [splitFirst, if_neg hc]
      cases hsf : splitFirst d rest with
      | none => simpa [hsf, Ne.symm hc] using ih.mp hsf
      | some p =>
        simp only [hsf]
        constructor
        · intro h; cases h
        · intro h
          exact absurd (ih.mpr (fun hm => h (List.mem_cons_of_mem _ hm))) (by simp [hsf])

theorem splitFirst_eq_some {d : Char} {s a b : Str}
    (h : splitFirst d s = some (a, b)) : s = a ++ d :: b ∧ d ∉ a := by
  induction s generalizing a b with
  | nil => simp [splitFirst] at h
  | cons c rest ih =>
    by_cases hc : c = d
    · subst hc
      simp only [splitFirst, if_pos rfl] at h
      cases h
      simp
    · simp only [splitFirst, if_neg hc] at h
      cases hsf : splitFirst d rest with
      | none => rw [hsf] at h; cases h
      | some p =>
        obtain ⟨a', b'⟩ := p
        rw [hsf] at h
        simp only [Option.some.injEq, Prod.mk.injEq] at h
        obtain ⟨ha, hb⟩ := h
        obtain ⟨hs, hna⟩ := ih hsf
        subst ha hb hs
        refine ⟨rfl, ?_⟩
        intro hmem
        rcases List.mem_cons.mp hmem with h1 | h2
        · exact hc h1.symm
        · exact hna h2

theorem gSplit2_ne_nil {d : Char} {s : Str} (hs : s ≠ []) :
    gSplit2 d s ≠ [] := by
  simp only [gSplit2, if_neg hs]
  cases h : splitFirst d s <;> simp

theorem stripGroupType_some {g r : Str} (h : stripGroupType g = some r) :
    r ≠ [] ∧ ∃ pre, splitFirst ' ' g = some (pre, r) := by
  simp only [stripGroupType] at h
  cases hsf : splitFirst ' ' g with
  | none => rw [hsf] at h; cases h
  | some p =>
    obtain ⟨a, b⟩ := p
    rw [hsf] at h
    by_cases hb : b = []
    · simp [hb] at h
    · simp only [if_neg hb, Option.some.injEq] at h
      subst h
      exact ⟨hb, a, rfl⟩

/-- C7: the identifier parser maps "event foo@bar" to name "foo" with
parent "bar", "event foo" to name "foo" with no parent, "event " (type
tag, one space, nothing else) to `none`, and any string with no space
at all to `none`. -/
theorem c7_identifier_roundtrip :
    parseGroupIdentifier (cs "event foo@bar") = some ⟨cs "foo", some (cs "bar")⟩ ∧
    parseGroupIdentifier (cs "event foo") = some ⟨cs "foo", none⟩ ∧
    parseGroupIdentifier (cs "event ") = none ∧
    (∀ s : Str, ' ' ∉ s → parseGroupIdentifier s = none) := by
  refine ⟨by decide, by decide, by decide, ?_⟩
  intro s hs
  have h : splitFirst ' ' s = none := splitFirst_eq_none.mpr hs
  simp [parseGroupIdentifier, parseGroupName, stripGroupType, h]

theorem c7_identifier_roundtrip_witness :
    parseGroupIdentifier (cs "event") = none :=
  c7_identifier_roundtrip.2.2.2 (cs "event") (by decide)

/-- C6 counterexample: the claimed invariant fails.  For the raw group
string "event @bar" the parser returns an identifier whose name is the
empty string (rather than `none` or a non-empty name), and for
"event foo@" it returns an identifier whose parent is present but
empty. -/
theorem c6_invariant_counterexample :
    parseGroupIdentifier (cs "event @bar") = some ⟨[], some (cs "bar")⟩ ∧
    parseGroupIdentifier (cs "event foo@") = some ⟨cs "foo", some []⟩ := by
  constructor <;> decide

/-- C6 (amended): the parser returns `none` exactly when stripping the
type tag fails (no space, or nothing after the first space).  Whenever
it returns an identifier, the name is the — possibly empty — part of
the stripped remainder before its first `@`, containing no `@`, and the
parent, present exactly when an `@` occurs, is the — possibly empty —
part after that first `@`. -/
theorem c6_identifier_components :
    (∀ g : Str, parseGroupIdentifier g = none ↔ stripGroupType g = none) ∧
    (∀ (g : Str) (gi : GroupIdentifier), parseGroupIdentifier g = some gi →
      '@' ∉ gi.name ∧
      ∃ rest, stripGroupType g = some rest ∧ rest ≠ [] ∧
        ((gi.parent = none ∧ rest = gi.name) ∨
         (∃ p, gi.parent = some p ∧ rest = gi.name ++ '@' :: p))) := by
  constructor
  · intro g
    constructor
    · intro h
      cases hst : stripGroupType g with
      | none => rfl
      | some rest =>
        obtain ⟨hne, -⟩ := stripGroupType_some hst
        simp only [parseGroupIdentifier, parseGroupName, hst] at h
        cases hsp : gSplit2 '@' rest with
        | nil => exact absurd hsp (gSplit2_ne_nil hne)
        | cons n t => rw [hsp] at h; cases h
    · intro h
      simp [parseGroupIdentifier, parseGroupName, h]
  · intro g gi h
    simp only [parseGroupIdentifier] at h
    cases hpn : parseGroupName g with
    | none => rw [hpn] at h; cases h
    | some n =>
      rw [hpn] at h
      simp only [Option.some.injEq] at h
      subst h
      simp only [parseGroupName] at hpn
      cases hst : stripGroupType g with
      | none => rw [hst] at hpn; cases hpn
      | some rest =>
        obtain ⟨hne, -⟩ := stripGroupType_some hst
        rw [hst] at hpn
        simp only [gSplit2, if_neg hne] at hpn
        cases hsf : splitFirst '@' rest with
        | none =>
          rw [hsf] at hpn
          simp only [Option.some.injEq] at hpn
          subst hpn
          refine ⟨splitFirst_eq_none.mp hsf, rest, rfl, hne, Or.inl ⟨?_, rfl⟩⟩
          simp only [parseGroupParent, hst, gSplit2, if_neg hne, hsf]
        | some pr =>
          obtain ⟨a, b⟩ := pr
          rw [hsf] at hpn
          simp only [Option.some.injEq] at hpn
          subst hpn
          obtain ⟨hrest, hna⟩ := splitFirst_eq_some hsf
          refine ⟨hna, rest, rfl, hne, Or.inr ⟨b, ?_, hrest⟩⟩
          simp only [parseGroupParent, hst, gSplit2, if_neg hne, hsf]

theorem c6_identifier_components_witness :
    '@' ∉ (⟨cs "foo", some (cs "bar")⟩ : GroupIdentifier).name ∧
    ∃ rest, stripGroupType (cs "event foo@bar") = some rest ∧ rest ≠ [] ∧
      (((⟨cs "foo", some (cs "bar")⟩ : GroupIdentifier).parent = none ∧
          rest = (⟨cs "foo", some (cs "bar")⟩ : GroupIdentifier).name) ∨
       (∃ p, (⟨cs "foo", some (cs "bar")⟩ : GroupIdentifier).parent = some p ∧
          rest = (⟨cs "foo", some (cs "bar")⟩ : GroupIdentifier).name ++ '@' :: p)) :=
  c6_identifier_components.2 (cs "event foo@bar") ⟨cs "foo", some (cs "bar")⟩ (by decide)

-- Property-set lemmas shared by the resolution theorems.

theorem plistGet_set_self (p : Proplist) (k : Str) (v : NValue) :
    plistGet (plistSet p k v) k = some v := by
  induction p with
  | nil => simp [plistSet, plistGet]
  | cons hd tl ih =>
    obtain ⟨k', w⟩ := hd
    by_cases h : k' = k
    · subst h; simp [plistSet, plistGet]
    · simp [plistSet, plistGet, h, ih]

theorem plistGet_set_ne (p : Proplist) {k k' : Str} (v : NValue) (h : k' ≠ k) :
    plistGet (plistSet p k v) k' = plistGet p k' := by
  induction p with
  | nil =>
    simp only [plistSet, plistGet]
    rw [if_neg (Ne.symm h)]
  | cons hd tl ih =>
    obtain ⟨k2, w⟩ := hd
    by_cases h2 : k2 = k
    · subst h2
      simp only [plistSet, if_pos rfl, plistGet, if_neg (Ne.symm h)]
    · by_cases h3 : k2 = k'
      · simp [plistSet, h2, plistGet, h3, h]
      · simp [plistSet, h2, plistGet, h3, ih]

theorem addEntry_get_ne (k : KeyFile) (g : Str) (b : Bool) (p : Proplist) (e : KeyEntry)
    {key : Str} (h : key ≠ e.key) :
    plistGet (addEntry k g b p e) key = plistGet p key := by
  unfold addEntry
  cases e.type with
  | str =>
    unfold addPropertyString
    cases k.getStr g e.key with
    | ok v => exact plistGet_set_ne p _ h
    | invalidValue => cases b <;> simp [plistGet_set_ne _ _ h]
    | notFound => cases b <;> simp [plistGet_set_ne _ _ h]
  | int =>
    unfold addPropertyInt
    cases k.getInt g e.key with
    | ok v => exact plistGet_set_ne p _ h
    | invalidValue => cases b <;> simp [plistGet_set_ne _ _ h]
    | notFound => cases b <;> simp [plistGet_set_ne _ _ h]
  | bool =>
    unfold addPropertyBool
    cases k.getBool g e.key with
    | ok v => exact plistGet_set_ne p _ h
    | invalidValue => cases b <;> simp [plistGet_set_ne _ _ h]
    | notFound => cases b <;> simp [plistGet_set_ne _ _ h]

theorem addEntry_base (k : KeyFile) (g : Str) (p : Proplist) (e : KeyEntry) :
    plistGet (addEntry k g true p e) e.key = some (entryResult k g e) := by
  unfold addEntry entryResult
  cases e.type with
  | str =>
    unfold addPropertyString
    cases k.getStr g e.key <;> simp [plistGet_set_self]
  | int =>
    unfold addPropertyInt
    cases k.getInt g e.key <;> simp [plistGet_set_self]
  | bool =>
    unfold addPropertyBool
    cases k.getBool g e.key <;> simp [plistGet_set_self]

theorem addEntry_fail (k : KeyFile) (g : Str) (p : Proplist) (e : KeyEntry)
    (hf : entryFails k g e) : addEntry k g false p e = p := by
  obtain ⟨ty, key, di, ds⟩ := e
  unfold entryFails at hf
  unfold addEntry
  cases ty with
  | str =>
    unfold addPropertyString
    cases hres : k.getStr g key with
    | ok v => exact absurd hres (hf v)
    | invalidValue => simp
    | notFound => simp
  | int =>
    unfold addPropertyInt
    cases hres : k.getInt g key with
    | ok v => exact absurd hres (hf v)
    | invalidValue => simp
    | notFound => simp
  | bool =>
    unfold addPropertyBool
    cases hres : k.getBool g key with
    | ok v => exact absurd hres (hf v)
    | invalidValue => simp
    | notFound => simp

theorem foldl_get_untouched (k : KeyFile) (g : Str) (b : Bool) (L : List KeyEntry) :
    ∀ (p : Proplist) (key : Str), (∀ e' ∈ L, key ≠ e'.key) →
    plistGet (L.foldl (addEntry k g b) p) key = plistGet p key := by
  induction L with
  | nil => intro p key _; rfl
  | cons hd tl ih =>
    intro p key hk
    rw [List.foldl_cons, ih _ key (fun e' he' => hk e' (List.mem_cons_of_mem _ he'))]
    exact addEntry_get_ne k g b p hd (hk hd (List.mem_cons_self hd tl))

theorem foldl_base_get (k : KeyFile) (g : Str) (L : List KeyEntry)
    (hdist : L.Pairwise (fun a b => a.key ≠ b.key)) {e : KeyEntry} (he : e ∈ L) :
    ∀ p : Proplist,
    plistGet (L.foldl (addEntry k g true) p) e.key = some (entryResult k g e) := by
  induction L with
  | nil => cases he
  | cons hd tl ih =>
    intro p
    rcases List.mem_cons.mp he with rfl | hm
    · rw [List.foldl_cons,
        foldl_get_untouched k g true tl _ e.key
          (fun e' he' => (List.pairwise_cons.mp hdist).1 e' he')]
      exact addEntry_base k g p e
    · rw [List.foldl_cons]
      exact ih (List.pairwise_cons.mp hdist).2 hm _

theorem foldl_fail_get (k : KeyFile) (g : Str) (L : List KeyEntry)
    (hdist : L.Pairwise (fun a b => a.key ≠ b.key)) {e : KeyEntry} (he : e ∈ L)
    (hf : entryFails k g e) :
    ∀ p : Proplist,
    plistGet (L.foldl (addEntry k g false) p) e.key = plistGet p e.key := by
  induction L with
  | nil => cases he
  | cons hd tl ih =>
    intro p
    rcases List.mem_cons.mp he with rfl | hm
    · rw [List.foldl_cons,
        foldl_get_untouched k g false tl _ e.key
          (fun e' he' => (List.pairwise_cons.mp hdist).1 e' he'),
        addEntry_fail k g p e hf]
    · rw [List.foldl_cons, ih (List.pairwise_cons.mp hdist).2 hm _,
        addEntry_get_ne k g false p hd (Ne.symm ((List.pairwise_cons.mp hdist).1 e hm))]

theorem event_entries_keys_distinct :
    event_entries.Pairwise (fun a b => a.key ≠ b.key) := by decide

theorem parseSingleEvent_none (fuel : Nat) (groups : List (Str × Str)) (k : KeyFile)
    (st : SState) : parseSingleEvent fuel groups k st none = (st, []) := by
  cases fuel <;> rfl

/-- C1: base/derived defaulting policy of the schema scan.  The schema
has 18 rows.  For a base event (no parent in the group identifier) the
pass set contains every schema field, bound to the source value when
the read succeeds and to the schema default otherwise; and the resolver
stores exactly this set as the event's resolved set.  For a derived
event (parent declared) a field whose read fails is omitted from the
event's own pass set. -/
theorem c1_default_policy :
    event_entries.length = 18 ∧
    (∀ (k : KeyFile) (group : Str), ∀ e ∈ event_entries,
      plistGet (buildProps k group true) e.key = some (entryResult k group e)) ∧
    (∀ (k : KeyFile) (group : Str), ∀ e ∈ event_entries, entryFails k group e →
      plistGet (buildProps k group false) e.key = none) ∧
    (∀ (fuel : Nat) (groups : List (Str × Str)) (k : KeyFile) (st : SState)
       (name group : Str),
      eventIsDone st.done name = false →
      hashLookup groups name = some group →
      parseGroupParent group = none →
      parseSingleEvent (fuel + 1) groups k st (some name)
        = (⟨hashInsert st.events name (some (buildProps k group true)),
            st.done ++ [name]⟩, [name])) := by
  refine ⟨rfl, ?_, ?_, ?_⟩
  · intro k group e he
    exact foldl_base_get k group event_entries event_entries_keys_distinct he []
  · intro k group e he hf
    have h := foldl_fail_get k group event_entries event_entries_keys_distinct he hf []
    simpa [buildProps, plistGet] using h
  · intro fuel groups k st name group hdone hg hp
    simp [parseSingleEvent, hdone, hg, hp, parseSingleEvent_none]

theorem c1_default_policy_witness :
    plistGet (buildProps kfAllAbsent (cs "event p") true) (cs "max_timeout")
      = some (entryResult kfAllAbsent (cs "event p") ⟨.int, cs "max_timeout", 0, none⟩) ∧
    plistGet (buildProps kfAllAbsent (cs "event e@ghost") false) (cs "max_timeout") = none ∧
    parseSingleEvent 1 groupsShared kfAllAbsent ⟨[], []⟩ (some (cs "p"))
      = (⟨[(cs "p", some (buildProps kfAllAbsent (cs "event p") true))], [cs "p"]⟩, [cs "p"]) :=
  ⟨c1_default_policy.2.1 kfAllAbsent (cs "event p") ⟨.int, cs "max_timeout", 0, none⟩ (by decide),
   c1_default_policy.2.2.1 kfAllAbsent (cs "event e@ghost") ⟨.int, cs "max_timeout", 0, none⟩
     (by decide) (by decide),
   c1_default_policy.2.2.2 0 groupsShared kfAllAbsent ⟨[], []⟩ (cs "p") (cs "event p")
     (by decide) (by decide) (by decide)⟩

-- Trace lemmas for `parseSingleEvent`, shared by the memoization
-- theorems.

theorem eventIsDone_iff_mem (l : List Str) (n : Str) :
    eventIsDone l n = true ↔ n ∈ l := by
  induction l with
  | nil => simp [eventIsDone]
  | cons d rest ih =>
    by_cases h : d = n
    · subst h; simp [eventIsDone]
    · simp only [eventIsDone, if_neg h, ih]
      constructor
      · intro hm
        exact List.mem_cons_of_mem _ hm
      · intro hm
        rcases List.mem_cons.mp hm with rfl | hm2
        · exact absurd rfl h
        · exact hm2

theorem countStr_append (a b : List Str) (x : Str) :
    countStr (a ++ b) x = countStr a x + countStr b x := by
  induction a with
  | nil => simp [countStr]
  | cons d rest ih => simp [countStr, ih]; omega

theorem countStr_eq_zero {l : List Str} {x : Str} (h : x ∉ l) : countStr l x = 0 := by
  induction l with
  | nil => rfl
  | cons d rest ih =>
    have hd : d ≠ x := fun hh => h (hh ▸ List.mem_cons_self d rest)
    have hr : x ∉ rest := fun hh => h (List.mem_cons_of_mem _ hh)
    simp [countStr, hd, ih hr]

theorem countStr_pos {l : List Str} {x : Str} (h : x ∈ l) : 1 ≤ countStr l x := by
  induction l with
  | nil => cases h
  | cons d rest ih =>
    rcases List.mem_cons.mp h with rfl | hm
    · simp [countStr]
    · have := ih hm
      simp only [countStr]
      omega

theorem psE_done {groups : List (Str × Str)} {k : KeyFile} {st : SState} {name : Str}
    (h : name ∈ st.done) (fuel : Nat) :
    parseSingleEvent fuel groups k st (some name) = (st, []) := by
  cases fuel with
  | zero => rfl
  | succ fuel => simp [parseSingleEvent, (eventIsDone_iff_mem _ _).mpr h]

theorem psE_noGroup {groups : List (Str × Str)} {k : KeyFile} {nm : Str}
    (h : hashLookup groups nm = none) (fuel : Nat) (st : SState) :
    parseSingleEvent fuel groups k st (some nm) = (st, []) := by
  cases fuel with
  | zero => rfl
  | succ fuel =>
    by_cases hdone : eventIsDone st.done nm = true
    · simp [parseSingleEvent, hdone]
    · simp [parseSingleEvent, hdone, h]

theorem psE_done_eq (groups : List (Str × Str)) (k : KeyFile) :
    ∀ (fuel : Nat) (st : SState) (nm : Option Str),
    (parseSingleEvent fuel groups k st nm).1.done
      = st.done ++ (parseSingleEvent fuel groups k st nm).2 := by
  intro fuel
  induction fuel with
  | zero => intro st nm; simp [parseSingleEvent]
  | succ fuel ih =>
    intro st nm
    cases nm with
    | none => simp [parseSingleEvent]
    | some name =>
      by_cases hdone : eventIsDone st.done name = true
      · simp [parseSingleEvent, hdone]
      · cases hg : hashLookup groups name with
        | none => simp [parseSingleEvent, hdone, hg]
        | some group =>
          simp only [parseSingleEvent, hdone, hg]
          rw [ih st (parseGroupParent group)]
          simp

theorem psE_fresh (groups : List (Str × Str)) (k : KeyFile) :
    ∀ (fuel : Nat) (st : SState) (nm : Option Str) (x : Str),
    x ∈ st.done → x ∉ (parseSingleEvent fuel groups k st nm).2 := by
  intro fuel
  induction fuel with
  | zero => intro st nm x hx; simp [parseSingleEvent]
  | succ fuel ih =>
    intro st nm x hx
    cases nm with
    | none => simp [parseSingleEvent]
    | some name =>
      by_cases hdone : eventIsDone st.done name = true
      · simp [parseSingleEvent, hdone]
      · cases hg : hashLookup groups name with
        | none => simp [parseSingleEvent, hdone, hg]
        | some group =>
          simp only [parseSingleEvent, hdone, hg]
          intro hmem
          rcases List.mem_append.mp hmem with h1 | h2
          · exact ih st (parseGroupParent group) x hx h1
          · have hxn : x = name := by simpa using h2
            subst hxn
            exact hdone ((eventIsDone_iff_mem _ _).mpr hx)

theorem psE_chain_avoid (groups : List (Str × Str)) (k : KeyFile) {p : Str} :
    ∀ (fuel : Nat) (st : SState) (nm : Str),
    inParentChain groups fuel nm p = false →
    p ∉ (parseSingleEvent fuel groups k st (some nm)).2 := by
  intro fuel
  induction fuel with
  | zero => intro st nm _; simp [parseSingleEvent]
  | succ fuel ih =>
    intro st nm hchain
    have hne : nm ≠ p := by
      intro h
      subst h
      simp [inParentChain] at hchain
    by_cases hdone : eventIsDone st.done nm = true
    · simp [parseSingleEvent, hdone]
    · cases hg : hashLookup groups nm with
      | none => simp [parseSingleEvent, hdone, hg]
      | some group =>
        simp only [parseSingleEvent, hdone, hg]
        intro hmem
        rcases List.mem_append.mp hmem with h1 | h2
        · cases hp : parseGroupParent group with
          | none =>
            simp [hp, parseSingleEvent_none] at h1
          | some q =>
            have hpar : parentOf groups nm = some q := by
              simp [parentOf, hg, hp]
            have hq : inParentChain groups fuel q p = false := by
              have hc := hchain
              simp only [inParentChain, if_neg hne, hpar] at hc
              exact hc
            rw [hp] at h1
            exact ih st q hq h1
        · have hpn : p = nm := by simpa using h2
          exact hne hpn.symm

theorem psE_once_of_acyclic (groups : List (Str × Str)) (k : KeyFile) {p : Str}
    (hacyc : ∀ (fuel : Nat) (q : Str), parentOf groups p = some q →
      inParentChain groups fuel q p = false) :
    ∀ (fuel : Nat) (st : SState) (nm : Option Str),
    countStr (parseSingleEvent fuel groups k st nm).2 p ≤ 1 := by
  intro fuel
  induction fuel with
  | zero => intro st nm; simp [parseSingleEvent, countStr]
  | succ fuel ih =>
    intro st nm
    cases nm with
    | none => simp [parseSingleEvent, countStr]
    | some name =>
      by_cases hdone : eventIsDone st.done name = true
      · simp [parseSingleEvent, hdone, countStr]
      · cases hg : hashLookup groups name with
        | none => simp [parseSingleEvent, hdone, hg, countStr]
        | some group =>
          simp only [parseSingleEvent, hdone, hg]
          by_cases hnp : name = p
          · subst hnp
            cases hp : parseGroupParent group with
            | none =>
              rw [parseSingleEvent_none]
              simp [countStr]
            | some q =>
              have hpar : parentOf groups name = some q := by
                simp [parentOf, hg, hp]
              have havoid : name ∉ (parseSingleEvent fuel groups k st (some q)).2 :=
                psE_chain_avoid groups k fuel st q (hacyc fuel q hpar)
              simp only [Bool.false_eq_true, if_false, countStr_append,
                countStr_eq_zero havoid]
              simp [countStr]
          · have h1 := ih st (parseGroupParent group)
            have h2 : countStr [name] p = 0 := countStr_eq_zero (by simp [Ne.symm hnp])
            simp only [Bool.false_eq_true, if_false, countStr_append, h2]
            omega

/-- C2: memoization.  (1) Resolving a name that is already on the
done-list is a no-op: the events table and the done-list are returned
unchanged and nothing is computed.  (2) When two events are resolved in
sequence and a name `p` (e.g. the parent both of them declare) was
computed during the first resolution, then — provided the inheritance
chain through `p` is acyclic, i.e. `p`'s own parent chain never leads
back to `p` (the C recursion has no cycle guard and would not terminate
otherwise) — the combined trace computes `p` exactly once, whether `p`
is a base or a derived event. -/
theorem c2_memoization :
    (∀ (fuel : Nat) (groups : List (Str × Str)) (k : KeyFile) (st : SState) (name : Str),
      name ∈ st.done →
      parseSingleEvent fuel groups k st (some name) = (st, [])) ∧
    (∀ (fuel1 fuel2 : Nat) (groups : List (Str × Str)) (k : KeyFile) (st0 : SState)
       (c1 c2 p : Str),
      (∀ (fuel : Nat) (q : Str), parentOf groups p = some q →
        inParentChain groups fuel q p = false) →
      p ∈ (parseSingleEvent fuel1 groups k st0 (some c1)).2 →
      countStr ((parseSingleEvent fuel1 groups k st0 (some c1)).2
        ++ (parseSingleEvent fuel2 groups k
              (parseSingleEvent fuel1 groups k st0 (some c1)).1 (some c2)).2) p = 1) := by
  constructor
  · intro fuel groups k st name h
    exact psE_done h fuel
  · intro fuel1 fuel2 groups k st0 c1 c2 p hacyc hmem
    have hle : countStr (parseSingleEvent fuel1 groups k st0 (some c1)).2 p ≤ 1 :=
      psE_once_of_acyclic groups k hacyc fuel1 st0 (some c1)
    have hge : 1 ≤ countStr (parseSingleEvent fuel1 groups k st0 (some c1)).2 p :=
      countStr_pos hmem
    have hdone1 : p ∈ (parseSingleEvent fuel1 groups k st0 (some c1)).1.done := by
      rw [psE_done_eq groups k fuel1 st0 (some c1)]
      exact List.mem_append_right _ hmem
    have hzero : countStr (parseSingleEvent fuel2 groups k
        (parseSingleEvent fuel1 groups k st0 (some c1)).1 (some c2)).2 p = 0 :=
      countStr_eq_zero (psE_fresh groups k fuel2 _ (some c2) p hdone1)
    rw [countStr_append]
    omega

theorem c2_memoization_witness :
    parseSingleEvent 1 groupsShared kfAllAbsent ⟨[], [cs "a"]⟩ (some (cs "a"))
      = (⟨[], [cs "a"]⟩, []) ∧
    countStr ((parseSingleEvent 5 groupsShared2 kfAllAbsent ⟨[], []⟩ (some (cs "a"))).2
      ++ (parseSingleEvent 4 groupsShared2 kfAllAbsent
            (parseSingleEvent 5 groupsShared2 kfAllAbsent ⟨[], []⟩ (some (cs "a"))).1
            (some (cs "b"))).2) (cs "p") = 1 :=
  ⟨c2_memoization.1 1 groupsShared kfAllAbsent ⟨[], [cs "a"]⟩ (cs "a") (by decide),
   c2_memoization.2 5 4 groupsShared2 kfAllAbsent ⟨[], []⟩ (cs "a") (cs "b") (cs "p")
     (fun fuel q hq => by
       have hr : parentOf groupsShared2 (cs "p") = some (cs "r") := by decide
       rw [hr] at hq
       have hqr : q = cs "r" := (Option.some.inj hq).symm
       subst hqr
       cases fuel with
       | zero => rfl
       | succ fuel =>
         have h1 : ¬ (cs "r" = cs "p") := by decide
         have h2 : parentOf groupsShared2 (cs "r") = none := by decide
         simp [inParentChain, h1, h2])
     (by decide)⟩

/-- C4 counterexample: the claim predicts that an event whose declared
parent has no matching group is resolved with base-event defaulting
(schema defaults for missing fields).  For the configuration holding
only the group "event e@ghost", with every field read failing, the
resolver instead stores the NULL property set for "e": no field — in
particular not "max_timeout" — carries the schema default. -/
theorem c4_unresolved_parent_counterexample :
    hashLookup (parseSingleEvent 2 groupsGhost kfAllAbsent ⟨[], []⟩
        (some (cs "e"))).1.events (cs "e") = some none ∧
    ¬ ∃ pl : Proplist,
        hashLookup (parseSingleEvent 2 groupsGhost kfAllAbsent ⟨[], []⟩
            (some (cs "e"))).1.events (cs "e") = some (some pl) ∧
        plistGet pl (cs "max_timeout") = some (.int 0) := by
  have h : hashLookup (parseSingleEvent 2 groupsGhost kfAllAbsent ⟨[], []⟩
      (some (cs "e"))).1.events (cs "e") = some none := by decide
  refine ⟨h, ?_⟩
  rintro ⟨pl, hpl, -⟩
  rw [h] at hpl
  cases hpl

/-- C4 (amended): when the declared parent name has no matching group,
the recursive call on the parent is inert (it returns the state
unchanged and computes nothing), the event itself is still processed
under the derived-event policy (`is_base` stays false because the
parent string is non-NULL), and — the parent having no resolved
entry — the event's stored property set is the NULL set: neither
schema defaults nor any synthetic fallback value are injected. -/
theorem c4_unresolved_parent_inert :
    ∀ (fuel : Nat) (groups : List (Str × Str)) (k : KeyFile) (st : SState)
      (name group p : Str),
    eventIsDone st.done name = false →
    hashLookup groups name = some group →
    parseGroupParent group = some p →
    hashLookup groups p = none →
    hashLookup st.events p = none →
    parseSingleEvent fuel groups k st (some p) = (st, []) ∧
    parseSingleEvent (fuel + 1) groups k st (some name)
      = (⟨hashInsert st.events name none, st.done ++ [name]⟩, [name]) := by
  intro fuel groups k st name group p hdone hg hp hpg hpe
  have hinert : parseSingleEvent fuel groups k st (some p) = (st, []) :=
    psE_noGroup hpg fuel st
  refine ⟨hinert, ?_⟩
  have hdone' : ¬ eventIsDone st.done name = true := by simp [hdone]
  simp [parseSingleEvent, hdone', hg, hp, hinert, hpe, nProplistCopy]

theorem c4_unresolved_parent_inert_witness :
    parseSingleEvent 1 groupsGhost kfAllAbsent ⟨[], []⟩ (some (cs "ghost"))
      = (⟨[], []⟩, []) ∧
    parseSingleEvent 2 groupsGhost kfAllAbsent ⟨[], []⟩ (some (cs "e"))
      = (⟨[(cs "e", none)], [cs "e"]⟩, [cs "e"]) :=
  c4_unresolved_parent_inert 1 groupsGhost kfAllAbsent ⟨[], []⟩ (cs "e")
    (cs "event e@ghost") (cs "ghost") (by decide) (by decide) (by decide)
    (by decide) (by decide)

/-- C3 counterexample: the claim says the parsed level field is 10,
but `_create_volume` sets the level of every `linear:` reference to
the constant 100; only the ramp holds the three parsed integers. -/
theorem c3_linear_counterexample :
    createVolume (some (cs "linear:10;20;30")) = some (.linear 100 (10, 20, 30)) ∧
    createVolume (some (cs "linear:10;20;30")) ≠ some (.linear 10 (10, 20, 30)) := by
  constructor <;> decide

/-- C3 (amended): parsing "linear:10;20;30" yields a Linear volume
reference whose level field is the constant 100 and whose 3-element
ramp is [10,20,30]. -/
theorem c3_linear_level_100 :
    createVolume (some (cs "linear:10;20;30")) = some (.linear 100 (10, 20, 30)) := by
  decide

theorem isPrefixOf_cons_ne {a b : Char} (h : (a == b) = false) (as bs : Str) :
    (a :: as).isPrefixOf (b :: bs) = false := by
  simp [List.isPrefixOf, h]

theorem isPrefixOf_self_append (pre s : Str) : pre.isPrefixOf (pre ++ s) = true := by
  induction pre with
  | nil => simp
  | cons c cp ih => simp [List.isPrefixOf, ih]

theorem stripLit_self_append (pre s : Str) : stripLit pre (pre ++ s) = some s := by
  unfold stripLit
  rw [if_pos (isPrefixOf_self_append pre s)]
  rw [List.drop_left]

theorem createVolume_none_of_unknown_tag {s : Str}
    (h1 : (cs "profile:").isPrefixOf s = false)
    (h2 : (cs "fixed:").isPrefixOf s = false)
    (h3 : (cs "linear:").isPrefixOf s = false) :
    createVolume (some s) = none := by
  simp [createVolume, stripLit, h1, h2, h3, contextAddVolume]

/-- C5 counterexample: the claim says the raw volume string is split
on `;` and the first successfully parsed candidate wins, which for
"bogus;fixed:80" would be the Fixed reference with level 80 (as the
spec-modelled parser shows); `_create_volume` never splits on `;` and,
the whole string bearing no known prefix, yields no volume at all. -/
theorem c5_volume_counterexample :
    createVolume (some (cs "bogus;fixed:80")) = none ∧
    createVolumeSpecFirst (cs "bogus;fixed:80") = some (.fixed 80) := by
  constructor <;> decide

/-- C5 (amended): the materialized volume is single-valued and comes
from `_create_volume` applied to the whole raw string: there is no
top-level split on `;` — a string that does not itself begin with
`profile:`, `fixed:` or `linear:` yields no volume (even when some
`;`-separated tail candidate would parse), and any parsed volume
implies the whole string bears one of the three prefixes. -/
theorem c5_volume_single_valued :
    (∀ (fs : Str → Bool) (soundDir patternDir : Str) (pl : Option Proplist),
      (finalizeEvent fs soundDir patternDir pl).volume
        = createVolume (getStrD pl (cs "volume"))) ∧
    (∀ s : Str, (cs "profile:").isPrefixOf s = false →
      (cs "fixed:").isPrefixOf s = false →
      (cs "linear:").isPrefixOf s = false →
      createVolume (some s) = none) ∧
    (∀ (s : Str) (v : Volume), createVolume (some s) = some v →
      ((cs "profile:").isPrefixOf s = true ∨ (cs "fixed:").isPrefixOf s = true ∨
       (cs "linear:").isPrefixOf s = true)) := by
  refine ⟨fun _ _ _ _ => rfl, fun s h1 h2 h3 => createVolume_none_of_unknown_tag h1 h2 h3, ?_⟩
  intro s v hv
  by_contra h
  push_neg at h
  obtain ⟨h1, h2, h3⟩ := h
  rw [createVolume_none_of_unknown_tag (Bool.not_eq_true _ ▸ h1 : _)
    (Bool.not_eq_true _ ▸ h2 : _) (Bool.not_eq_true _ ▸ h3 : _)] at hv
  cases hv

theorem c5_volume_single_valued_witness :
    (finalizeEvent (fun _ => false) [] [] none).volume
      = createVolume (getStrD none (cs "volume")) ∧
    createVolume (some (cs "bogus;fixed:80")) = none :=
  ⟨c5_volume_single_valued.1 (fun _ => false) [] [] none,
   c5_volume_single_valued.2.1 (cs "bogus;fixed:80") (by decide) (by decide) (by decide)⟩

theorem foldl_toList_append {α : Type} (f : Str → Option α) (L : List Str) :
    ∀ acc : List α,
    L.foldl (fun a e => a ++ (f e).toList) acc = acc ++ L.filterMap f := by
  induction L with
  | nil => intro acc; simp
  | cons hd tl ih =>
    intro acc
    cases hf : f hd with
    | some x => simp [List.foldl_cons, hf, ih, List.filterMap_cons]
    | none => simp [List.foldl_cons, hf, ih, List.filterMap_cons]

/-- C8: a multi-valued resource field (sound or vibration) is split on
`;` at the top level, every entry is parsed independently, and the
successes are collected in source order (`List.filterMap`), so a
failing entry is dropped without affecting the others; and a
`filename:` entry whose payload exists neither verbatim nor under the
configured search directory fails. -/
theorem c8_multi_valued_entries :
    (∀ (fs : Str → Bool) (soundDir : Str) (s : Str),
      createSoundPaths fs soundDir (some s)
        = (gSplitAll ';' s).filterMap (fun e => parseSoundPath fs soundDir (some e))) ∧
    (∀ (fs : Str → Bool) (patternDir : Str) (s : Str),
      createPatterns fs patternDir (some s)
        = (gSplitAll ';' s).filterMap (fun e => parsePattern fs patternDir (some e))) ∧
    (∀ (fs : Str → Bool) (soundDir rest : Str),
      fs rest = false → fs (gBuildFilename soundDir rest) = false →
      parseSoundPath fs soundDir (some (cs "filename:" ++ rest)) = none) ∧
    (∀ (fs : Str → Bool) (patternDir rest : Str),
      fs rest = false → fs (gBuildFilename patternDir rest) = false →
      parsePattern fs patternDir (some (cs "filename:" ++ rest)) = none) := by
  refine ⟨?_, ?_, ?_, ?_⟩
  · intro fs soundDir s
    cases hsp : gSplitAll ';' s with
    | nil => simp [createSoundPaths, hsp]
    | cons hd tl =>
      have hred : createSoundPaths fs soundDir (some s)
          = (hd :: tl).foldl (fun acc e =>
              match parseSoundPath fs soundDir (some e) with
              | some x => acc ++ [x]
              | none => acc) [] := by
        simp [createSoundPaths, hsp]
      rw [hred]
      refine (List.foldl_ext _
        (fun a e => a ++ (parseSoundPath fs soundDir (some e)).toList) [] ?_).trans ?_
      · intro a b hb
        cases hp : parseSoundPath fs soundDir (some b) <;> simp [hp]
      · simpa using foldl_toList_append (fun e => parseSoundPath fs soundDir (some e)) (hd :: tl) []
  · intro fs patternDir s
    cases hsp : gSplitAll ';' s with
    | nil => simp [createPatterns, hsp]
    | cons hd tl =>
      have hred : createPatterns fs patternDir (some s)
          = (hd :: tl).foldl (fun acc e =>
              match parsePattern fs patternDir (some e) with
              | some x => acc ++ [x]
              | none => acc) [] := by
        simp [createPatterns, hsp]
      rw [hred]
      refine (List.foldl_ext _
        (fun a e => a ++ (parsePattern fs patternDir (some e)).toList) [] ?_).trans ?_
      · intro a b hb
        cases hp : parsePattern fs patternDir (some b) <;> simp [hp]
      · simpa using foldl_toList_append (fun e => parsePattern fs patternDir (some e)) (hd :: tl) []
  · intro fs soundDir rest h1 h2
    have hpf : stripLit (cs "profile:") (cs "filename:" ++ rest) = none := by
      unfold stripLit
      rw [show cs "profile:" = 'p' :: cs "rofile:" from rfl,
        show cs "filename:" ++ rest = 'f' :: (cs "ilename:" ++ rest) from rfl,
        isPrefixOf_cons_ne (by decide)]
      simp
    simp [parseSoundPath, hpf, stripLit_self_append, checkPath, h1, h2]
  · intro fs patternDir rest h1 h2
    have hpf : stripLit (cs "profile:") (cs "filename:" ++ rest) = none := by
      unfold stripLit
      rw [show cs "profile:" = 'p' :: cs "rofile:" from rfl,
        show cs "filename:" ++ rest = 'f' :: (cs "ilename:" ++ rest) from rfl,
        isPrefixOf_cons_ne (by decide)]
      simp
    simp [parsePattern, hpf, stripLit_self_append, checkPath, h1, h2]

theorem c8_multi_valued_entries_witness :
    createSoundPaths (fun p => p = cs "/snd/foo.wav") (cs "/snd")
        (some (cs "filename:foo.wav;profile:x@y;filename:nope"))
      = (gSplitAll ';' (cs "filename:foo.wav;profile:x@y;filename:nope")).filterMap
          (fun e => parseSoundPath (fun p => p = cs "/snd/foo.wav") (cs "/snd") (some e)) ∧
    parseSoundPath (fun _ => false) (cs "/snd") (some (cs "filename:" ++ cs "nope")) = none ∧
    parsePattern (fun _ => false) (cs "/vib") (some (cs "filename:" ++ cs "nope")) = none :=
  ⟨c8_multi_valued_entries.1 (fun p => p = cs "/snd/foo.wav") (cs "/snd")
     (cs "filename:foo.wav;profile:x@y;filename:nope"),
   c8_multi_valued_entries.2.2.1 (fun _ => false) (cs "/snd") (cs "nope") rfl rfl,
   c8_multi_valued_entries.2.2.2 (fun _ => false) (cs "/vib") (cs "nope") rfl rfl⟩

theorem parseGeneral_none_iff (initVol : Int × Int × Int) (k : KeyFile) :
    parseGeneral initVol k = none ↔
      getStringOpt k (cs "general") (cs "system_volume") = none := by
  unfold parseGeneral
  cases h : getStringOpt k (cs "general") (cs "system_volume") with
  | none => simp
  | some v => simp

/-- C10: `_parse_general` reads `system_volume` with no `NULL` check
before handing it to `g_strsplit`, so it crashes (modelled `none`)
exactly when the key is absent from the loaded source; consequently
`load_settings` runs to a return value, with its error branch still
reachable, exactly when either no candidate file loads or the loaded
file's general group has a `system_volume` value — a precondition the
spec never states. -/
theorem c10_system_volume_ub :
    (∀ (initVol : Int × Int × Int) (k : KeyFile),
      parseGeneral initVol k = none ↔
        getStringOpt k (cs "general") (cs "system_volume") = none) ∧
    (∀ (fs : Str → Bool) (initVol : Int × Int × Int) (load : Str → Option KeyFile),
      loadSettings fs initVol load = none ↔
        ∃ kf, firstLoaded load confFiles = some kf ∧
          getStringOpt kf (cs "general") (cs "system_volume") = none) := by
  refine ⟨parseGeneral_none_iff, ?_⟩
  intro fs initVol load
  unfold loadSettings
  cases hfl : firstLoaded load confFiles with
  | none => simp
  | some kf =>
    dsimp only
    cases hpg : parseGeneral initVol kf with
    | none =>
      dsimp only
      constructor
      · intro _
        exact ⟨kf, rfl, (parseGeneral_none_iff initVol kf).mp hpg⟩
      · intro _
        rfl
    | some gen =>
      dsimp only
      constructor
      · intro h
        exact Option.noConfusion h
      · rintro ⟨kf2, hkf2, hsv⟩
        injection hkf2 with hk
        subst hk
        rw [(parseGeneral_none_iff initVol kf).mpr hsv] at hpg
        exact Option.noConfusion hpg

/-- C9 counterexample: the claim says that once a candidate file has
loaded, `load_settings` always returns success.  With a load map whose
first candidate yields a source lacking the `system_volume` key, the
file loads but `load_settings` reaches the `NULL` dereference in
`_parse_general` (modelled `none`) instead of returning success. -/
theorem c9_load_counterexample :
    firstLoaded loadEtcOnly confFiles = some kfAllAbsent ∧
    loadSettings (fun _ => false) (0, 0, 0) loadEtcOnly = none := by
  exact ⟨rfl, rfl⟩

/-- C9 (amended): `load_settings` returns failure exactly when no
candidate in the fixed ordered list loads; it uses the first candidate
that loads; and once a source has loaded, provided the general group
supplies `system_volume` (else the pass crashes rather than failing,
see C10), it returns success — no per-group or per-field condition of
the loaded source produces a failure return. -/
theorem c9_load_policy :
    ∀ (fs : Str → Bool) (initVol : Int × Int × Int) (load : Str → Option KeyFile),
    ((∃ r : LoadResult, loadSettings fs initVol load = some r ∧ r.success = false) ↔
      firstLoaded load confFiles = none) ∧
    (∀ kf : KeyFile, firstLoaded load confFiles = some kf →
      getStringOpt kf (cs "general") (cs "system_volume") ≠ none →
      ∃ r : LoadResult, loadSettings fs initVol load = some r ∧ r.success = true) ∧
    (∀ kf : KeyFile, load (cs "/etc/ngf/ngf.ini") = some kf →
      firstLoaded load confFiles = some kf) := by
  intro fs initVol load
  refine ⟨?_, ?_, ?_⟩
  · cases hfl : firstLoaded load confFiles with
    | none =>
      constructor
      · intro _
        rfl
      · intro _
        exact ⟨⟨false, none, [], []⟩, by simp [loadSettings, hfl], rfl⟩
    | some kf =>
      constructor
      · rintro ⟨r, hr, hs⟩
        simp only [loadSettings, hfl] at hr
        cases hpg : parseGeneral initVol kf with
        | none => rw [hpg] at hr; cases hr
        | some gen =>
          rw [hpg] at hr
          simp only [Option.some.injEq] at hr
          rw [← hr] at hs
          cases hs
      · intro h
        cases h
  · intro kf hfl hsv
    cases hpg : parseGeneral initVol kf with
    | none =>
      exact absurd ((parseGeneral_none_iff initVol kf).mp hpg) hsv
    | some gen =>
      refine ⟨⟨true, some gen, parseDefinitions kf,
        parseEvents fs (gen.soundPath.getD []) (gen.patternsPath.getD []) kf⟩, ?_, rfl⟩
      simp [loadSettings, hfl, hpg]
  · intro kf h
    simp [firstLoaded, confFiles, h]

theorem c9_load_policy_witness :
    (∃ r : LoadResult, loadSettings (fun _ => false) (0, 0, 0) loadEtcSysVol = some r ∧
      r.success = true) ∧
    firstLoaded loadEtcSysVol confFiles = some kfWithSysVol :=
  ⟨(c9_load_policy (fun _ => false) (0, 0, 0) loadEtcSysVol).2.1 kfWithSysVol rfl
     (by decide),
   (c9_load_policy (fun _ => false) (0, 0, 0) loadEtcSysVol).2.2 kfWithSysVol rfl⟩
